import Mathlib

/-!
Shallow embedding of the writedisk utility (sources: src/bin/wd_copier.rs
and src/bin/writedisk.rs).

Modelling conventions:
* Machine integers (`u64`) are modelled as `Nat`.  Rust's
  `u64::saturating_sub` coincides with truncated `Nat` subtraction.
* The `f64` arithmetic inside `calc_percent`
  (`(current as f64) / (max as f64) * 100` truncated by `as i32`) is
  modelled as exact rational arithmetic truncated toward zero, i.e. the
  `Nat` floor division `current * 100 / max`; the saturating
  `f64`-to-`i32` cast of Rust (values above `i32::MAX` become
  `i32::MAX`) is made explicit with `min _ i32Max`.  All concrete
  inputs used to evaluate this model below are exactly representable,
  and the order/range facts proved about it hold for the floating-point
  computation as well, since every operation involved is monotone.
* Paths are lists of components (`List String`); the filesystem and the
  mount table are injectable providers, as the code only observes them
  through reads.
-/

namespace Writedisk

/-! ## Definitions (shallow embedding of the source) -/

/-- `i32::MAX`, the saturation bound of Rust's `as i32` cast from `f64`. -/
def i32Max : Nat := 2147483647

/-- `fn calc_percent(current: u64, max: u64) -> i32` from wd_copier.rs:
if `max == 0` return 0 (division-by-zero guard); otherwise compute
`current / max * 100`, truncate toward zero (the `as i32` cast, which
saturates at `i32::MAX`), and clamp values above 100 down to 100. -/
def calc_percent (current max : Nat) : Int :=
  if max = 0 then 0
  else
    let percent : Int := Int.ofNat (min (current * 100 / max) i32Max)
    if percent > 100 then 100 else percent

/-- `struct DirtyInfo` from wd_copier.rs. -/
structure DirtyInfo where
  before_copy : Nat
  after_copy : Nat
  current : Nat
deriving DecidableEq

/-- `DirtyInfo::calc_sync_percent` from wd_copier.rs: both subtractions
are `u64::saturating_sub` (truncated `Nat` subtraction), and the
percentage is flipped because fewer dirty bytes means closer to done. -/
def DirtyInfo.calc_sync_percent (d : DirtyInfo) : Int :=
  100 - calc_percent (d.current - d.before_copy) (d.after_copy - d.before_copy)

/-- The assignment performed by `main` in wd_copier.rs immediately after
the copy loop: `dirty.after_copy = get_dirty_bytes() - dirty.before_copy`.
This is an unchecked `u64` subtraction, not `saturating_sub`: when it
underflows (dirty counter at copy end below the pre-copy baseline) a
debug build panics and a release build wraps; we model that failure case
as `none`. -/
def after_copy_assign (dirty_at_copy_end before_copy : Nat) : Option Nat :=
  if before_copy ≤ dirty_at_copy_end then some (dirty_at_copy_end - before_copy)
  else none

/-- One poll of the flush estimator as `main` in wd_copier.rs actually
wires it: the `after_copy` field holds the delta
`get_dirty_bytes() - before_copy` (see `after_copy_assign`; here taken
in the non-underflowing case), and `calc_sync_percent` then subtracts
`before_copy` from that field a second time. -/
def copier_poll_percent (before_copy dirty_at_copy_end current : Nat) : Int :=
  DirtyInfo.calc_sync_percent
    ⟨before_copy, dirty_at_copy_end - before_copy, current⟩

/-- Modelled from the spec (for comparison with `copier_poll_percent`):
`delta = saturating_sub(current, before_copy)`,
`span = after_copy_delta = dirty_at_copy_end - before_copy`, and
`percent = 100 - clamp(round(delta / span * 100), 0, 100)`, with
round-half-up rounding of the exact quotient. -/
def spec_poll_percent (before_copy dirty_at_copy_end current : Nat) : Int :=
  let delta := current - before_copy
  let span := dirty_at_copy_end - before_copy
  if span = 0 then 100
  else 100 - Int.ofNat (min ((delta * 100 * 2 + span) / (2 * span)) 100)

/-- `chunk_size` from `main` in wd_copier.rs: 1 MiB. -/
def chunk_size : Nat := 1024 * 1024

/-- The per-iteration read size of the copy loop:
`if chunk_size > remaining { remaining } else { chunk_size }`. -/
def read_size (remaining : Nat) : Nat :=
  if chunk_size > remaining then remaining else chunk_size

/-- The copy loop of `main` in wd_copier.rs.  `src` is the source file
contents, `dst` the destination contents (the destination pre-exists and
is opened for writing without truncation), `bytes_written` and
`remaining` the loop counters (`remaining = total - bytes_written`).
Each iteration reads the next `read_size remaining` bytes of `src` into
the chunk buffer and writes them over `dst` at offset `bytes_written`.
Returns the final `bytes_written`, the final destination contents, and
the list of per-iteration read sizes in order. -/
def copyLoop (src dst : List Nat) (bytes_written remaining : Nat) :
    Nat × List Nat × List Nat :=
  if _h : 0 < remaining then
    let rs := read_size remaining
    let dst1 := dst.take bytes_written ++ (src.drop bytes_written).take rs ++
      dst.drop (bytes_written + rs)
    let r := copyLoop src dst1 (bytes_written + rs) (remaining - rs)
    (r.1, r.2.1, rs :: r.2.2)
  else (bytes_written, dst, [])
termination_by remaining
decreasing_by
  refine Nat.sub_lt _h ?_
  unfold read_size chunk_size
  split <;> omega

/-- The sequence of read sizes the copy loop performs when `remaining`
bytes are left. -/
def chunkList (remaining : Nat) : List Nat :=
  if _h : 0 < remaining then
    read_size remaining :: chunkList (remaining - read_size remaining)
  else []
termination_by remaining
decreasing_by
  refine Nat.sub_lt _h ?_
  unfold read_size chunk_size
  split <;> omega

/-- Abstract filesystem provider covering exactly the reads the
discovery code performs (paths are component lists, root = `[]`). -/
structure SysFs where
  read_dir : List String → Except String (List String)
  exists_path : List String → Bool
  canonicalize : List String → Except String (List String)
  read_to_string : List String → Except String String

/-- Rust's `str::starts_with`, modelled on the character lists
underlying the strings. -/
def str_starts_with (s pre : String) : Bool :=
  pre.data.isPrefixOf s.data

/-- The chain `path.ancestors()` of Rust: the path itself, then each
parent in turn up to and including the root, closest first. -/
def ancestorChain : List String → List (List String)
  | [] => [[]]
  | a :: rest => ((ancestorChain rest).map (fun q => a :: q)) ++ [[]]

/-- Whether `path.file_name()` yields a component starting with `"usb"`
(at the root there is no final component). -/
def last_starts_usb (q : List String) : Bool :=
  match q.getLast? with
  | some name => str_starts_with name "usb"
  | none => false

/-- `fn is_usb_in_path` from writedisk.rs: some ancestor's final
component starts with `"usb"`. -/
def is_usb_in_path (p : List String) : Bool :=
  (ancestorChain p).any last_starts_usb

/-- An ancestor directory contains device info when the three descriptor
files manufacturer, product and serial all exist in it. -/
def contains_usb_info (fs : SysFs) (q : List String) : Bool :=
  fs.exists_path (q ++ ["manufacturer"]) &&
    fs.exists_path (q ++ ["product"]) &&
    fs.exists_path (q ++ ["serial"])

/-- `fn find_usb_info` from writedisk.rs: the first (closest) ancestor
containing all three descriptor files. -/
def find_usb_info (fs : SysFs) (p : List String) : Option (List String) :=
  (ancestorChain p).find? (contains_usb_info fs)

/-- `struct UsbBlockDevice` from writedisk.rs. -/
structure UsbBlockDevice where
  path : List String
  manufacturer : String
  product : String
  serial : String
deriving DecidableEq

/-- The `for entry in fs::read_dir("/sys/block")?` loop body of
`UsbBlockDevice::get_all` in writedisk.rs.  A candidate without a
`device` symlink, without USB ancestry, or without a descriptor
directory is skipped with `continue`; a `canonicalize` failure or a
descriptor-read failure propagates through the `?` operator and aborts
the whole enumeration.  Descriptor contents are trimmed. -/
def get_all_loop (fs : SysFs) : List String → Except String (List UsbBlockDevice)
  | [] => .ok []
  | name :: rest =>
    if fs.exists_path (["sys", "block", name] ++ ["device"]) then
      match fs.canonicalize (["sys", "block", name] ++ ["device"]) with
      | .error e => .error e
      | .ok canon =>
        if is_usb_in_path canon then
          match find_usb_info fs canon with
          | some info_path =>
            match fs.read_to_string (info_path ++ ["manufacturer"]) with
            | .error e => .error e
            | .ok manufacturer =>
              match fs.read_to_string (info_path ++ ["product"]) with
              | .error e => .error e
              | .ok product =>
                match fs.read_to_string (info_path ++ ["serial"]) with
                | .error e => .error e
                | .ok serial =>
                  match get_all_loop fs rest with
                  | .error e => .error e
                  | .ok devices =>
                    .ok ({ path := ["dev", name],
                           manufacturer := manufacturer.trim,
                           product := product.trim,
                           serial := serial.trim } :: devices)
          | none => get_all_loop fs rest
        else get_all_loop fs rest
    else get_all_loop fs rest

/-- `UsbBlockDevice::get_all` from writedisk.rs: list `/sys/block` and
run the loop; a failing top-level listing is fatal. -/
def get_all (fs : SysFs) : Except String (List UsbBlockDevice) :=
  match fs.read_dir ["sys", "block"] with
  | .error e => .error e
  | .ok entries => get_all_loop fs entries

/-- A synthetic filesystem: entry `sda` is a USB block device whose
descriptor files exist but whose manufacturer file cannot be read
(permission error); `sdb` is a fully readable USB block device; `sdc`
has non-USB ancestry; `sdd` is USB but has no descriptor directory
anywhere; `sde` is USB with a readable manufacturer file but a failing
product read; `sdf` is USB with readable manufacturer and product files
but a failing serial read.  The top-level listing contains `sda` and
`sdb`. -/
def fsC6 : SysFs where
  read_dir := fun p =>
    if p = ["sys", "block"] then .ok ["sda", "sdb"] else .error "nodir"
  exists_path := fun p =>
    decide (p ∈ ([["sys", "block", "sda", "device"],
      ["sys", "block", "sdb", "device"],
      ["sys", "block", "sdc", "device"],
      ["sys", "block", "sdd", "device"],
      ["sys", "block", "sde", "device"],
      ["sys", "block", "sdf", "device"],
      ["devices", "usb1", "dev1", "manufacturer"],
      ["devices", "usb1", "dev1", "product"],
      ["devices", "usb1", "dev1", "serial"],
      ["devices", "usb2", "dev2", "manufacturer"],
      ["devices", "usb2", "dev2", "product"],
      ["devices", "usb2", "dev2", "serial"],
      ["devices", "usb4", "dev4", "manufacturer"],
      ["devices", "usb4", "dev4", "product"],
      ["devices", "usb4", "dev4", "serial"],
      ["devices", "usb5", "dev5", "manufacturer"],
      ["devices", "usb5", "dev5", "product"],
      ["devices", "usb5", "dev5", "serial"]] : List (List String)))
  canonicalize := fun p =>
    if p = ["sys", "block", "sda", "device"] then .ok ["devices", "usb1", "dev1"]
    else if p = ["sys", "block", "sdb", "device"] then
      .ok ["devices", "usb2", "dev2"]
    else if p = ["sys", "block", "sdc", "device"] then
      .ok ["devices", "pci0", "dev3"]
    else if p = ["sys", "block", "sdd", "device"] then
      .ok ["devices", "usb3", "lonely"]
    else if p = ["sys", "block", "sde", "device"] then
      .ok ["devices", "usb4", "dev4"]
    else if p = ["sys", "block", "sdf", "device"] then
      .ok ["devices", "usb5", "dev5"]
    else .error "noent"
  read_to_string := fun p =>
    if p = ["devices", "usb1", "dev1", "manufacturer"] then .error "eacces"
    else if p = ["devices", "usb2", "dev2", "manufacturer"] then .ok "Acme"
    else if p = ["devices", "usb2", "dev2", "product"] then .ok "Stick"
    else if p = ["devices", "usb2", "dev2", "serial"] then .ok "123"
    else if p = ["devices", "usb4", "dev4", "manufacturer"] then .ok "Acme4"
    else if p = ["devices", "usb4", "dev4", "product"] then .error "eacces2"
    else if p = ["devices", "usb5", "dev5", "manufacturer"] then .ok "Acme5"
    else if p = ["devices", "usb5", "dev5", "product"] then .ok "Stick5"
    else if p = ["devices", "usb5", "dev5", "serial"] then .error "eacces3"
    else .error "noent"

/-- A filesystem whose top-level listing itself fails. -/
def fsErr : SysFs where
  read_dir := fun _ => .error "boom"
  exists_path := fun _ => false
  canonicalize := fun _ => .error "noent"
  read_to_string := fun _ => .error "noent"

/-- A synthetic filesystem for the `find_usb_info` witness: under
`/a/b` only manufacturer and product exist (serial is missing), under
`/a` all three exist. -/
def fsC8 : SysFs where
  read_dir := fun _ => .error "unused"
  exists_path := fun p =>
    decide (p ∈ ([["a", "b", "manufacturer"], ["a", "b", "product"],
      ["a", "manufacturer"], ["a", "product"],
      ["a", "serial"]] : List (List String)))
  canonicalize := fun _ => .error "unused"
  read_to_string := fun _ => .error "unused"

/-- A record of the mount table: `fs_spec` is the mounted device
(source specification), `fs_file` the mount point. -/
structure MountRecord where
  fs_spec : String
  fs_file : String
deriving DecidableEq

/-- `fn unmount_all_partitions` from wd_copier.rs, with the mount-table
read and the `umount` syscall injected.  The records whose `fs_spec`
starts with the device path are selected, and `umount` is attempted on
each one's mount point in order, regardless of earlier results (a
failure only changes the printed message).  Returns the trace of
attempts: each selected mount point paired with its `umount` result.  A
failed mount-table read returns early with no attempts. -/
def unmount_all_partitions (umount : String → Except String Unit)
    (mounts : Except String (List MountRecord)) (device_name : String) :
    List (String × Except String Unit) :=
  match mounts with
  | .error _ => []
  | .ok ms =>
    (ms.filter (fun x => str_starts_with x.fs_spec device_name)).map
      (fun part => (part.fs_file, umount part.fs_file))


/-! ## Theorems -/

/-- `calc_percent` always lands in `[0, 100]`, `max = 0` included. -/
theorem calc_percent_bounds (current max : Nat) :
    0 ≤ calc_percent current max ∧ calc_percent current max ≤ 100 := by
  unfold calc_percent
  split
  · exact ⟨le_refl 0, by norm_num⟩
  · dsimp only
    split
    · exact ⟨by norm_num, le_refl 100⟩
    · rename_i hle
      constructor
      · exact Int.ofNat_nonneg _
      · omega

/-- `calc_percent` is monotone in `current`. -/
theorem calc_percent_mono (max c1 c2 : Nat) (h : c1 ≤ c2) :
    calc_percent c1 max ≤ calc_percent c2 max := by
  unfold calc_percent
  split
  · exact le_refl 0
  · dsimp only
    have hab : min (c1 * 100 / max) i32Max ≤ min (c2 * 100 / max) i32Max := by
      have : c1 * 100 / max ≤ c2 * 100 / max :=
        Nat.div_le_div_right (Nat.mul_le_mul_right _ h)
      omega
    have hab2 : (Int.ofNat (min (c1 * 100 / max) i32Max)) ≤
        Int.ofNat (min (c2 * 100 / max) i32Max) := Int.ofNat_le.mpr hab
    split <;> split <;> omega

/-- C2: for `max > 0` the result of `calc_percent` lies in `[0,100]`;
`calc_percent x 0 = 0`; for fixed `max` it is non-decreasing in
`current`; and `calc_percent max max = 100` whenever `max > 0`. -/
theorem calc_percent_spec (current max x : Nat) :
    (0 < max → 0 ≤ calc_percent current max ∧ calc_percent current max ≤ 100) ∧
    calc_percent x 0 = 0 ∧
    (∀ c1 c2 : Nat, c1 ≤ c2 → calc_percent c1 max ≤ calc_percent c2 max) ∧
    (0 < max → calc_percent max max = 100) := by
  refine ⟨fun _ => calc_percent_bounds current max, by simp [calc_percent],
    fun c1 c2 h => calc_percent_mono max c1 c2 h, fun hmax => ?_⟩
  unfold calc_percent
  rw [if_neg (Nat.pos_iff_ne_zero.mp hmax)]
  have hdiv : max * 100 / max = 100 := by
    rw [Nat.mul_comm, Nat.mul_div_assoc 100 dvd_rfl, Nat.div_self hmax,
      Nat.mul_one]
  rw [hdiv]
  norm_num [i32Max]

/-- Witness for `calc_percent_spec` at `current = 3`, `max = 7`, `x = 5`,
`c1 = 2`, `c2 = 6`. -/
theorem calc_percent_spec_witness :
    (0 < 7 ∧ (0 ≤ calc_percent 3 7 ∧ calc_percent 3 7 ≤ 100)) ∧
    calc_percent 5 0 = 0 ∧
    (2 ≤ 6 ∧ calc_percent 2 7 ≤ calc_percent 6 7) ∧
    calc_percent 7 7 = 100 :=
  ⟨⟨by decide, (calc_percent_spec 3 7 5).1 (by decide)⟩,
   (calc_percent_spec 3 7 5).2.1,
   ⟨by decide, (calc_percent_spec 3 7 5).2.2.1 2 6 (by decide)⟩,
   (calc_percent_spec 3 7 5).2.2.2 (by decide)⟩

/-- C3: the five regression cases of `test_dirty_calc_percent` in
wd_copier.rs, with `before_copy = 100` and the `after_copy` field holding
the raw dirty count 120 sampled at copy end (20 bytes made dirty by the
copy): `current = 120 ↦ 0`, `105 ↦ 75`, `100 ↦ 100`, `0 ↦ 100` (clamped),
`200 ↦ 0` (clamped). -/
theorem dirty_calc_percent_cases :
    (DirtyInfo.mk 100 120 120).calc_sync_percent = 0 ∧
    (DirtyInfo.mk 100 120 105).calc_sync_percent = 75 ∧
    (DirtyInfo.mk 100 120 100).calc_sync_percent = 100 ∧
    (DirtyInfo.mk 100 120 0).calc_sync_percent = 100 ∧
    (DirtyInfo.mk 100 120 200).calc_sync_percent = 0 := by
  decide

/-- C10: `calc_sync_percent` is a total function of the three counter
samples (every subtraction saturates and the division-by-zero and i32
overflow cases are handled), and its result always lies in `[0,100]`,
for arbitrary, arbitrarily non-monotonic counter values. -/
theorem calc_sync_percent_total_range (d : DirtyInfo) :
    0 ≤ d.calc_sync_percent ∧ d.calc_sync_percent ≤ 100 := by
  have h := calc_percent_bounds (d.current - d.before_copy)
    (d.after_copy - d.before_copy)
  unfold DirtyInfo.calc_sync_percent
  omega

/-- C5 (code bug): the after-copy delta at wd_copier.rs line 177 is an
unchecked `u64` subtraction, not a saturating one: on the non-monotonic
reading `before_copy = 100`, dirty at copy end `= 50` it underflows
(`none`, a panic under debug overflow checks), whereas the saturating
subtraction the spec mandates yields 0. -/
theorem after_copy_assign_not_saturating :
    after_copy_assign 50 100 = none ∧ (50 : Nat) - 100 = 0 := by
  decide

/-- C4 (code bug): with `before_copy = 100`, dirty at copy end `= 120`
and a fresh sample `current = 110`, a poll of the running estimator
reports 100 (because `main` stores the delta 20 in the `after_copy`
field and `calc_sync_percent` subtracts `before_copy` from it again,
collapsing the span to 0), while the spec formula with
`span = after_copy_delta = 20` reports 50. -/
theorem copier_poll_diverges :
    copier_poll_percent 100 120 110 = 100 ∧ spec_poll_percent 100 120 110 = 50 := by
  decide

theorem chunk_size_pos : 0 < chunk_size := by decide

theorem read_size_eq_min (r : Nat) : read_size r = min chunk_size r := by
  unfold read_size
  split <;> omega

theorem read_size_pos (r : Nat) (h : 0 < r) : 0 < read_size r := by
  have := chunk_size_pos
  unfold read_size
  split <;> omega

theorem read_size_le (r : Nat) : read_size r ≤ r := by
  unfold read_size
  split <;> omega

theorem copyLoop_fst (src : List Nat) (remaining : Nat) :
    ∀ dst bytes_written,
      (copyLoop src dst bytes_written remaining).1 = bytes_written + remaining := by
  induction remaining using Nat.strong_induction_on with
  | _ rem ih =>
    intro dst bw
    rw [copyLoop]
    split
    · rename_i h
      have hle := read_size_le rem
      have hpos := read_size_pos rem h
      simp only
      rw [ih (rem - read_size rem) (Nat.sub_lt h hpos)]
      omega
    · rename_i h
      omega

theorem copyLoop_chunks (src : List Nat) (remaining : Nat) :
    ∀ dst bytes_written,
      (copyLoop src dst bytes_written remaining).2.2 = chunkList remaining := by
  induction remaining using Nat.strong_induction_on with
  | _ rem ih =>
    intro dst bw
    rw [copyLoop, chunkList]
    split
    · rename_i h
      have hpos := read_size_pos rem h
      simp only
      rw [ih (rem - read_size rem) (Nat.sub_lt h hpos)]
    · rfl

theorem copyLoop_dst (src : List Nat) (remaining : Nat) :
    ∀ dst bytes_written, bytes_written + remaining = src.length →
      src.length ≤ dst.length →
      (copyLoop src dst bytes_written remaining).2.1 =
        dst.take bytes_written ++ src.drop bytes_written ++ dst.drop src.length := by
  induction remaining using Nat.strong_induction_on with
  | _ rem ih =>
    intro dst bw hbw hlen
    rw [copyLoop]
    split
    · rename_i h
      have hrs_le := read_size_le rem
      have hrs_pos := read_size_pos rem h
      simp only
      set rs := read_size rem with hrs
      set dst1 := dst.take bw ++ (src.drop bw).take rs ++ dst.drop (bw + rs)
        with hdst1
      have hlen_take : (dst.take bw).length = bw := by
        rw [List.length_take]
        omega
      have hlen_buf : ((src.drop bw).take rs).length = rs := by
        rw [List.length_take, List.length_drop]
        omega
      have hdst1_len : dst1.length = dst.length := by
        rw [hdst1]
        simp only [List.length_append, List.length_take, List.length_drop]
        omega
      rw [ih (rem - rs) (Nat.sub_lt h hrs_pos) dst1 (bw + rs) (by omega)
        (by omega)]
      have htake : dst1.take (bw + rs) = dst.take bw ++ (src.drop bw).take rs := by
        rw [hdst1, List.take_append_eq_append_take,
          List.take_of_length_le (le_of_eq (by rw [List.length_append]; omega)),
          List.length_append, hlen_take, hlen_buf]
        have h0 : bw + rs - (bw + rs) = 0 := by omega
        rw [h0, List.take_zero, List.append_nil]
      have hdrop : dst1.drop src.length = dst.drop src.length := by
        rw [hdst1, List.drop_append_eq_append_drop,
          List.drop_eq_nil_of_le (by rw [List.length_append]; omega),
          List.nil_append, List.length_append, hlen_take, hlen_buf,
          List.drop_drop]
        congr 1
        omega
      rw [htake, hdrop]
      have hsplit : (src.drop bw).take rs ++ src.drop (bw + rs) = src.drop bw := by
        have hdd : src.drop (bw + rs) = (src.drop bw).drop rs := by
          rw [List.drop_drop]
        rw [hdd, List.take_append_drop]
      rw [List.append_assoc (dst.take bw) ((src.drop bw).take rs)
        (src.drop (bw + rs)), hsplit]
    · rename_i h
      have hbw0 : bw = src.length := by omega
      subst hbw0
      rw [List.drop_length, List.append_nil, List.take_append_drop]

theorem chunkList_sum (n : Nat) : (chunkList n).sum = n := by
  induction n using Nat.strong_induction_on with
  | _ n ih =>
    rw [chunkList]
    split
    · rename_i h
      have hle := read_size_le n
      have hpos := read_size_pos n h
      rw [List.sum_cons, ih (n - read_size n) (Nat.sub_lt h hpos)]
      omega
    · rename_i h
      simp only [List.sum_nil]
      omega

theorem chunkList_getElem (n : Nat) :
    ∀ i v, (chunkList n)[i]? = some v →
      v = min chunk_size (n - ((chunkList n).take i).sum) := by
  induction n using Nat.strong_induction_on with
  | _ n ih =>
    intro i v hv
    by_cases h : 0 < n
    · rw [chunkList, dif_pos h] at hv ⊢
      have hle := read_size_le n
      have hpos := read_size_pos n h
      match i with
      | 0 =>
        simp only [List.getElem?_cons_zero, Option.some.injEq] at hv
        simp only [List.take_zero, List.sum_nil, Nat.sub_zero]
        rw [← hv, read_size_eq_min]
      | i + 1 =>
        simp only [List.getElem?_cons_succ] at hv
        have hrec := ih (n - read_size n) (Nat.sub_lt h hpos) i v hv
        simp only [List.take_succ_cons, List.sum_cons]
        rw [hrec]
        congr 1
        omega
    · rw [chunkList, dif_neg h] at hv
      simp at hv

theorem chunkList_ne_nil (n : Nat) (h : 0 < n) : chunkList n ≠ [] := by
  rw [chunkList, dif_pos h]
  exact List.cons_ne_nil _ _

theorem getLast?_cons_of_ne_nil {α : Type} (a : α) (l : List α) (h : l ≠ []) :
    (a :: l).getLast? = l.getLast? := by
  match l with
  | [] => exact absurd rfl h
  | b :: l2 => exact List.getLast?_cons_cons

theorem chunkList_getLast? (n : Nat) (hn : 0 < n) (hmod : n % chunk_size ≠ 0) :
    (chunkList n).getLast? = some (n % chunk_size) := by
  induction n using Nat.strong_induction_on with
  | _ n ih =>
    rw [chunkList, dif_pos hn]
    unfold read_size
    split
    · rename_i hgt
      have h0 : n - n = 0 := by omega
      rw [h0, chunkList, dif_neg (by omega)]
      rw [List.getLast?_singleton, Nat.mod_eq_of_lt hgt]
    · rename_i hng
      have hcp := chunk_size_pos
      have hchunk_le : chunk_size ≤ n := by omega
      have hne : n ≠ chunk_size := by
        intro heq
        rw [heq, Nat.mod_self] at hmod
        exact hmod rfl
      have hlt : chunk_size < n := by omega
      have hsub_pos : 0 < n - chunk_size := by omega
      have hmod_eq : n % chunk_size = (n - chunk_size) % chunk_size :=
        Nat.mod_eq_sub_mod hchunk_le
      rw [getLast?_cons_of_ne_nil _ _ (chunkList_ne_nil _ hsub_pos),
        ih (n - chunk_size) (by omega) hsub_pos
          (by rw [← hmod_eq]; exact hmod), hmod_eq]

theorem sum_take_le (l : List Nat) (i : Nat) : (l.take i).sum ≤ l.sum := by
  conv_rhs => rw [← List.take_append_drop i l]
  rw [List.sum_append]
  exact Nat.le_add_right _ _

theorem sum_take_mono (l : List Nat) (i j : Nat) (h : i ≤ j) :
    (l.take i).sum ≤ (l.take j).sum := by
  have heq : (l.take j).take i = l.take i := by
    rw [List.take_take, Nat.min_eq_left h]
  rw [← heq]
  exact sum_take_le _ _

/-- C1: starting from `bytes_written = 0` with `total = src.length` and a
pre-existing destination at least as long as the source, the copy loop
terminates with `bytes_written = total`, transfers exactly `total` bytes
(the read sizes sum to `total`), leaves the destination with its first
`total` bytes byte-identical to the source, each iteration transfers
`min chunk_size (total - bytes_written)` bytes, and when `total` is
positive and not a multiple of `chunk_size` the final chunk is
`total % chunk_size`, strictly shorter than `chunk_size`. -/
theorem copy_loop_spec (src dst : List Nat) (hlen : src.length ≤ dst.length) :
    (copyLoop src dst 0 src.length).1 = src.length ∧
    ((copyLoop src dst 0 src.length).2.2).sum = src.length ∧
    ((copyLoop src dst 0 src.length).2.1).take src.length = src ∧
    (∀ i v, ((copyLoop src dst 0 src.length).2.2)[i]? = some v →
      v = min chunk_size
        (src.length - (((copyLoop src dst 0 src.length).2.2).take i).sum)) ∧
    (0 < src.length → src.length % chunk_size ≠ 0 →
      ((copyLoop src dst 0 src.length).2.2).getLast? =
        some (src.length % chunk_size) ∧
      src.length % chunk_size < chunk_size) := by
  refine ⟨?_, ?_, ?_, ?_, ?_⟩
  · rw [copyLoop_fst, Nat.zero_add]
  · rw [copyLoop_chunks, chunkList_sum]
  · rw [copyLoop_dst src src.length dst 0 (by omega) hlen, List.take_zero,
      List.drop_zero, List.nil_append]
    exact List.take_left src _
  · intro i v hv
    rw [copyLoop_chunks] at hv
    rw [copyLoop_chunks]
    exact chunkList_getElem src.length i v hv
  · intro hpos hmod
    rw [copyLoop_chunks]
    exact ⟨chunkList_getLast? src.length hpos hmod,
      Nat.mod_lt _ chunk_size_pos⟩

/-- Witness for `copy_loop_spec`: a 3-byte source copied over a 5-byte
pre-existing destination. -/
theorem copy_loop_spec_witness :
    ([1, 2, 3] : List Nat).length ≤ ([9, 9, 9, 9, 5] : List Nat).length ∧
    ((copyLoop [1, 2, 3] [9, 9, 9, 9, 5] 0
        ([1, 2, 3] : List Nat).length).2.1).take
      ([1, 2, 3] : List Nat).length = [1, 2, 3] ∧
    0 < ([1, 2, 3] : List Nat).length ∧
    ([1, 2, 3] : List Nat).length % chunk_size ≠ 0 ∧
    ((copyLoop [1, 2, 3] [9, 9, 9, 9, 5] 0
        ([1, 2, 3] : List Nat).length).2.2).getLast? =
      some (([1, 2, 3] : List Nat).length % chunk_size) :=
  ⟨by decide, (copy_loop_spec [1, 2, 3] [9, 9, 9, 9, 5] (by decide)).2.2.1,
   by decide, by decide,
   ((copy_loop_spec [1, 2, 3] [9, 9, 9, 9, 5] (by decide)).2.2.2.2
     (by decide) (by decide)).1⟩

/-- C9: throughout the copy loop started at `bytes_written = 0` with
`total = src.length`, the value of `bytes_written` after `i` iterations
is the sum of the first `i` read sizes; it satisfies
`0 ≤ bytes_written ≤ total` at every step, is monotonically
non-decreasing across iterations, and equals `total` when the loop
exits. -/
theorem copy_loop_invariant (src dst : List Nat) :
    (copyLoop src dst 0 src.length).1 = src.length ∧
    (∀ i, 0 ≤ (((copyLoop src dst 0 src.length).2.2).take i).sum ∧
      (((copyLoop src dst 0 src.length).2.2).take i).sum ≤ src.length) ∧
    (∀ i j, i ≤ j →
      (((copyLoop src dst 0 src.length).2.2).take i).sum ≤
        (((copyLoop src dst 0 src.length).2.2).take j).sum) := by
  refine ⟨by rw [copyLoop_fst, Nat.zero_add], fun i => ⟨Nat.zero_le _, ?_⟩,
    fun i j hij => sum_take_mono _ i j hij⟩
  calc (((copyLoop src dst 0 src.length).2.2).take i).sum
      ≤ ((copyLoop src dst 0 src.length).2.2).sum := sum_take_le _ _
    _ = src.length := by rw [copyLoop_chunks, chunkList_sum]

/-- Witness for `copy_loop_invariant`: a 2-byte source over a 2-byte
destination, monotonicity instantiated at iterations 1 and 2. -/
theorem copy_loop_invariant_witness :
    (1 ≤ 2) ∧
    (((copyLoop [5, 6] [0, 0] 0 ([5, 6] : List Nat).length).2.2).take 1).sum ≤
      (((copyLoop [5, 6] [0, 0] 0 ([5, 6] : List Nat).length).2.2).take 2).sum :=
  ⟨by decide, (copy_loop_invariant [5, 6] [0, 0]).2.2 1 2 (by decide)⟩

/-- C6 counterexample: on `fsC6` the top-level listing succeeds, yet
discovery as a whole fails with the descriptor-read error of candidate
`sda` instead of skipping it — the perfectly readable device `sdb` is
lost too.  So a descriptor-read failure is not a silent per-candidate
skip, and discovery can fail even though the top-level listing was
enumerable. -/
theorem get_all_descriptor_read_fatal :
    fsC6.read_dir ["sys", "block"] = .ok ["sda", "sdb"] ∧
    get_all fsC6 = .error "eacces" :=
  ⟨rfl, rfl⟩

/-- C6 (amended): a candidate with no USB ancestry or no qualifying
descriptor directory is silently skipped and enumeration continues with
the remaining candidates; but a failure reading any of the three
descriptor files (manufacturer, product or serial) aborts discovery as
a whole (as does a failure of the top-level listing, which is fatal as
before). -/
theorem get_all_skip_and_fail (fs : SysFs) (name : String)
    (rest entries canon info : List String) (m p e : String) :
    (fs.exists_path ["sys", "block", name, "device"] = true →
      fs.canonicalize ["sys", "block", name, "device"] = .ok canon →
      is_usb_in_path canon = false →
      get_all_loop fs (name :: rest) = get_all_loop fs rest) ∧
    (fs.exists_path ["sys", "block", name, "device"] = true →
      fs.canonicalize ["sys", "block", name, "device"] = .ok canon →
      is_usb_in_path canon = true →
      find_usb_info fs canon = none →
      get_all_loop fs (name :: rest) = get_all_loop fs rest) ∧
    (fs.exists_path ["sys", "block", name, "device"] = true →
      fs.canonicalize ["sys", "block", name, "device"] = .ok canon →
      is_usb_in_path canon = true →
      find_usb_info fs canon = some info →
      fs.read_to_string (info ++ ["manufacturer"]) = .error e →
      get_all_loop fs (name :: rest) = .error e) ∧
    (fs.exists_path ["sys", "block", name, "device"] = true →
      fs.canonicalize ["sys", "block", name, "device"] = .ok canon →
      is_usb_in_path canon = true →
      find_usb_info fs canon = some info →
      fs.read_to_string (info ++ ["manufacturer"]) = .ok m →
      fs.read_to_string (info ++ ["product"]) = .error e →
      get_all_loop fs (name :: rest) = .error e) ∧
    (fs.exists_path ["sys", "block", name, "device"] = true →
      fs.canonicalize ["sys", "block", name, "device"] = .ok canon →
      is_usb_in_path canon = true →
      find_usb_info fs canon = some info →
      fs.read_to_string (info ++ ["manufacturer"]) = .ok m →
      fs.read_to_string (info ++ ["product"]) = .ok p →
      fs.read_to_string (info ++ ["serial"]) = .error e →
      get_all_loop fs (name :: rest) = .error e) ∧
    (fs.read_dir ["sys", "block"] = .error e → get_all fs = .error e) ∧
    (fs.read_dir ["sys", "block"] = .ok entries →
      get_all fs = get_all_loop fs entries) := by
  refine ⟨?_, ?_, ?_, ?_, ?_, ?_, ?_⟩
  · intro h1 h2 h3
    simp [get_all_loop, h1, h2, h3]
  · intro h1 h2 h3 h4
    simp [get_all_loop, h1, h2, h3, h4]
  · intro h1 h2 h3 h4 h5
    simp [get_all_loop, h1, h2, h3, h4, h5]
  · intro h1 h2 h3 h4 h5 h6
    simp [get_all_loop, h1, h2, h3, h4, h5, h6]
  · intro h1 h2 h3 h4 h5 h6 h7
    simp [get_all_loop, h1, h2, h3, h4, h5, h6, h7]
  · intro h
    simp [get_all, h]
  · intro h
    simp [get_all, h]

/-- Witness for `get_all_skip_and_fail`, on the concrete filesystems
`fsC6` and `fsErr`: one instance of each skip condition, a fatal read of
each of the three descriptor files, the fatal top-level listing, and the
successful top-level listing. -/
theorem get_all_skip_and_fail_witness :
    (get_all_loop fsC6 ["sdc"] = get_all_loop fsC6 []) ∧
    (get_all_loop fsC6 ["sdd"] = get_all_loop fsC6 []) ∧
    (get_all_loop fsC6 ["sda"] = Except.error "eacces") ∧
    (get_all_loop fsC6 ["sde"] = Except.error "eacces2") ∧
    (get_all_loop fsC6 ["sdf"] = Except.error "eacces3") ∧
    (get_all fsErr = Except.error "boom") ∧
    (get_all fsC6 = get_all_loop fsC6 ["sda", "sdb"]) :=
  ⟨(get_all_skip_and_fail fsC6 "sdc" [] [] ["devices", "pci0", "dev3"] []
     "" "" "x").1 (by rfl) (by rfl) (by rfl),
   (get_all_skip_and_fail fsC6 "sdd" [] [] ["devices", "usb3", "lonely"] []
     "" "" "x").2.1 (by rfl) (by rfl) (by rfl) (by rfl),
   (get_all_skip_and_fail fsC6 "sda" [] [] ["devices", "usb1", "dev1"]
     ["devices", "usb1", "dev1"] "" "" "eacces").2.2.1 (by rfl) (by rfl)
     (by rfl) (by rfl) (by rfl),
   (get_all_skip_and_fail fsC6 "sde" [] [] ["devices", "usb4", "dev4"]
     ["devices", "usb4", "dev4"] "Acme4" "" "eacces2").2.2.2.1 (by rfl)
     (by rfl) (by rfl) (by rfl) (by rfl) (by rfl),
   (get_all_skip_and_fail fsC6 "sdf" [] [] ["devices", "usb5", "dev5"]
     ["devices", "usb5", "dev5"] "Acme5" "Stick5" "eacces3").2.2.2.2.1
     (by rfl) (by rfl) (by rfl) (by rfl) (by rfl) (by rfl) (by rfl),
   (get_all_skip_and_fail fsErr "" [] [] [] [] "" "" "boom").2.2.2.2.2.1
     (by rfl),
   (get_all_skip_and_fail fsC6 "" [] ["sda", "sdb"] [] [] "" "" "x").2.2.2.2.2.2
     (by rfl)⟩

theorem find?_first {α : Type} (p : α → Bool) :
    ∀ (l : List α) (a : α), l.find? p = some a →
      ∃ i : Nat, l[i]? = some a ∧ p a = true ∧
        ∀ (j : Nat) (b : α), j < i → l[j]? = some b → p b = false := by
  intro l
  induction l with
  | nil =>
    intro a h
    simp [List.find?] at h
  | cons x xs ih =>
    intro a h
    by_cases hx : p x = true
    · rw [List.find?_cons_of_pos _ hx] at h
      refine ⟨0, ?_, ?_, ?_⟩
      · simpa using h
      · obtain rfl : x = a := by simpa using h
        exact hx
      · intro j b hj
        intro _
        exact absurd hj (Nat.not_lt_zero j)

    · rw [List.find?_cons_of_neg _ (by simpa using hx)] at h
      obtain ⟨i, hi, hpa, hprev⟩ := ih a h
      refine ⟨i + 1, by simpa using hi, hpa, ?_⟩
      intro j b hj hb
      match j with
      | 0 =>
        obtain rfl : b = x := by simpa using hb.symm
        simpa using hx
      | j + 1 =>
        exact hprev j b (by omega) (by simpa using hb)

theorem ancestorChain_cons_dropLast :
    ∀ p : List String, p ≠ [] → ancestorChain p = p :: ancestorChain p.dropLast := by
  intro p
  induction p with
  | nil => intro h; exact absurd rfl h
  | cons a rest ih =>
    cases rest with
    | nil => intro _; rfl
    | cons b rest2 =>
      intro _
      have h2 := ih (List.cons_ne_nil b rest2)
      show ((ancestorChain (b :: rest2)).map (fun q => a :: q)) ++ [[]] =
        (a :: b :: rest2) :: ancestorChain ((a :: b :: rest2).dropLast)
      rw [h2, List.map_cons, List.cons_append]
      congr 1

/-- C8: `find_usb_info` walks the ancestor chain from the path itself
toward the root (for a non-root path the chain is the path consed onto
the chain of its parent) and returns the first (closest) ancestor whose
directory contains all three descriptor files; every closer ancestor it
passed over lacks at least one of the three; and it yields `none`
exactly when no ancestor qualifies. -/
theorem find_usb_info_spec (fs : SysFs) (p : List String) :
    (∀ q, find_usb_info fs p = some q →
      contains_usb_info fs q = true ∧
      ∃ i : Nat, (ancestorChain p)[i]? = some q ∧
        ∀ (j : Nat) (r : List String), j < i → (ancestorChain p)[j]? = some r →
          contains_usb_info fs r = false) ∧
    (find_usb_info fs p = none ↔
      ∀ q ∈ ancestorChain p, contains_usb_info fs q = false) ∧
    (p ≠ [] → ancestorChain p = p :: ancestorChain p.dropLast) := by
  refine ⟨?_, ?_, ancestorChain_cons_dropLast p⟩
  · intro q hq
    obtain ⟨i, hi, hpq, hprev⟩ := find?_first (contains_usb_info fs) _ q hq
    exact ⟨hpq, i, hi, hprev⟩
  · unfold find_usb_info
    rw [List.find?_eq_none]
    constructor
    · intro h q hq
      have := h q hq
      simpa using this
    · intro h q hq
      simp [h q hq]

/-- Witness for `find_usb_info_spec`: on `fsC8` the search from
`/a/b` skips `/a/b` (missing serial) and returns `/a`; from `/z`
nothing qualifies, so even the root lacks the descriptors; and the chain
of `/a/b` starts with `/a/b` itself. -/
theorem find_usb_info_spec_witness :
    (contains_usb_info fsC8 ["a"] = true ∧
      ∃ i : Nat, (ancestorChain ["a", "b"])[i]? = some ["a"] ∧
        ∀ (j : Nat) (r : List String), j < i → (ancestorChain ["a", "b"])[j]? = some r →
          contains_usb_info fsC8 r = false) ∧
    contains_usb_info fsC8 [] = false ∧
    ancestorChain ["a", "b"] =
      ["a", "b"] :: ancestorChain ((["a", "b"] : List String).dropLast) :=
  ⟨(find_usb_info_spec fsC8 ["a", "b"]).1 ["a"] (by rfl),
   (find_usb_info_spec fsC8 ["z"]).2.1.mp (by rfl) [] (by decide),
   (find_usb_info_spec fsC8 ["a", "b"]).2.2 (by decide)⟩

/-- C7: the records passed to `umount` are exactly those of the mount
table whose source spec starts with the target device path, in table
order; which records are attempted does not depend on the outcomes of
the individual `umount` calls (a failed unmount does not prevent the
remaining attempts); and when the mount table cannot be read at all, the
guard degrades to a no-op instead of failing. -/
theorem unmount_all_partitions_spec (u u1 u2 : String → Except String Unit)
    (ms : List MountRecord) (dev e : String) :
    (unmount_all_partitions u (.ok ms) dev).map Prod.fst =
      (ms.filter (fun x => str_starts_with x.fs_spec dev)).map (fun x => x.fs_file) ∧
    (unmount_all_partitions u1 (.ok ms) dev).map Prod.fst =
      (unmount_all_partitions u2 (.ok ms) dev).map Prod.fst ∧
    unmount_all_partitions u (.error e) dev = [] := by
  refine ⟨?_, ?_, rfl⟩ <;>
    simp [unmount_all_partitions, List.map_map, Function.comp]


end Writedisk
